import Mathlib

/-!
Verification of the fixed-step integrators of the numeric-methods lab:
the RK4 solver of `ecosystem.rs`, the RK4 and 4-step Adams-Bashforth /
Adams-Moulton predictor-corrector of `semiconductor/src/main.rs`, and the
convergence-comparison routine `compare` of `ecosystem.rs`.

The two-component `f64` state vectors are modelled over `ℚ`; the Rust
`((tf - t0) / dt).floor() as usize` cast (which clamps negative values
to zero) is modelled by `Int.toNat` on the rational floor.
-/

set_option maxHeartbeats 1000000

/-- A two-component state vector, as the `[f64; 2]` arrays of the source. -/
abbrev Vec2 : Type := ℚ × ℚ

/-- The `update` closure of both RK4 loops: `u = w + h * k`, componentwise. -/
def update (w k : Vec2) (h : ℚ) : Vec2 :=
  (w.1 + h * k.1, w.2 + h * k.2)

/-- The `next` closure of both RK4 loops:
`wnext = w1 + (dt/6) * (k1 + 2*k2 + 2*k3 + k4)`, componentwise. -/
def next (dt : ℚ) (w1 k1 k2 k3 k4 : Vec2) : Vec2 :=
  (w1.1 + dt / 6 * (k1.1 + 2 * k2.1 + 2 * k3.1 + k4.1),
   w1.2 + dt / 6 * (k1.2 + 2 * k2.2 + 2 * k3.2 + k4.2))

/-- One iteration of the RK4 main loop body, exactly as both sources compute
it: `w2` is based on `w1`, but `w3` is based on `w2` and `w4` on `w3`
(`update(&w2, &k2, &mut w3, 0.5*dt)` and `update(&w3, &k3, &mut w4, dt)`). -/
def rk4Step (rate : Vec2 → Vec2) (dt : ℚ) (w1 : Vec2) : Vec2 :=
  let k1 := rate w1
  let w2 := update w1 k1 (1 / 2 * dt)
  let k2 := rate w2
  let w3 := update w2 k2 (1 / 2 * dt)
  let k3 := rate w3
  let w4 := update w3 k3 dt
  let k4 := rate w4
  next dt w1 k1 k2 k3 k4

/-- The step count `((tf - t0) / dt).floor() as usize` of both solvers;
Rust's float-to-usize cast clamps negatives to `0`, as `Int.toNat` does. -/
def stepCount (t0 tf dt : ℚ) : ℕ :=
  (⌊(tf - t0) / dt⌋).toNat

/-- The RK4 main loop `for i in s..=el`: read the last pushed state, apply
the step body, push the new state and the time `t0 + i*dt` (computed from
the index). `rem` is the number of remaining iterations. -/
def rk4Loop (rate : Vec2 → Vec2) (t0 dt : ℚ) :
    ℕ → ℕ → List ℚ × List Vec2 → List ℚ × List Vec2
  | _, 0, acc => acc
  | i, rem + 1, acc =>
    rk4Loop rate t0 dt (i + 1) rem
      (acc.1 ++ [t0 + (i : ℚ) * dt],
       acc.2 ++ [rk4Step rate dt (acc.2.getLastD (0, 0))])

/-- The `Ecosystem` metadata struct of `ecosystem.rs`. -/
structure Ecosystem where
  ic : Vec2
  a : Vec2
  b : Vec2
  c : Vec2
  ts : Vec2

/-- `Ecosystem::new`. -/
def Ecosystem.new (ic a b c ts : Vec2) : Ecosystem :=
  ⟨ic, a, b, c, ts⟩

/-- `Ecosystem::rate`, the Lotka-Volterra style rate function. -/
def Ecosystem.rate (e : Ecosystem) (pop : Vec2) : Vec2 :=
  (pop.1 * (e.a.1 - e.b.1 * pop.1 - e.c.1 * pop.2),
   pop.2 * (e.a.2 - e.b.2 * pop.2 - e.c.2 * pop.1))

/-- `Ecosystem::solve`: push `(ts.0, ic)`, then run the RK4 loop for
`i in 1..=n` with `n = ((ts.1 - ts.0)/dt).floor() as usize`. -/
def Ecosystem.solve (e : Ecosystem) (dt : ℚ) : List ℚ × List Vec2 :=
  rk4Loop e.rate e.ts.1 dt 1 (stepCount e.ts.1 e.ts.2 dt) ([e.ts.1], [e.ic])

/-- The oscillator rate function of `semiconductor/src/main.rs`:
`dz = [z2, alpha*z2 - z2^3 - z1]`. -/
def rate (alpha : ℚ) (z : Vec2) : Vec2 :=
  (z.2, alpha * z.2 - z.2 ^ 3 - z.1)

/-- `rk4` of `semiconductor/src/main.rs`: the initial state is the
hard-coded `[0.0, 0.1]`, then the RK4 loop runs for `i in 1..=el`. -/
def rk4 (alpha dt t0 tf : ℚ) : List ℚ × List Vec2 :=
  rk4Loop (rate alpha) t0 dt 1 (stepCount t0 tf dt) ([t0], [(0, 1 / 10)])

/-- The `[[f64; 2]; 4]` derivative-history window `f` of
`abam4_pred_corr`, with named slots, oldest (`f0`) to newest (`f3`). -/
structure Hist where
  f0 : Vec2
  f1 : Vec2
  f2 : Vec2
  f3 : Vec2
deriving DecidableEq

/-- Write slot `i` of the history window (`f[i] = v`); indices past `3`
leave the window unchanged (they do not occur in the modelled runs). -/
def histSet (f : Hist) : ℕ → Vec2 → Hist
  | 0, v => ⟨v, f.f1, f.f2, f.f3⟩
  | 1, v => ⟨f.f0, v, f.f2, f.f3⟩
  | 2, v => ⟨f.f0, f.f1, v, f.f3⟩
  | 3, v => ⟨f.f0, f.f1, f.f2, v⟩
  | _ + 4, _ => f

/-- The all-zero initial history window (`[[0.0, 0.0]; 4]`). -/
def hist0 : Hist :=
  ⟨(0, 0), (0, 0), (0, 0), (0, 0)⟩

/-- The initialization loop of `abam4_pred_corr`:
`for (i, y0i) in y0.iter().enumerate()` push `t0 + i*dt` and `y0i`, and
store `rate(y0i)` in slot `i` of the history window. -/
def abamInit (rate : Vec2 → Vec2) (t0 dt : ℚ) :
    ℕ → List Vec2 → (List ℚ × List Vec2) × Hist → (List ℚ × List Vec2) × Hist
  | _, [], s => s
  | i, y0i :: rest, s =>
    abamInit rate t0 dt (i + 1) rest
      ((s.1.1 ++ [t0 + (i : ℚ) * dt], s.1.2 ++ [y0i]), histSet s.2 i (rate y0i))

/-- The `predict` closure (Adams-Bashforth 4):
`wpred = w + (dt/24) * (55*f[3] - 59*f[2] + 37*f[1] - 9*f[0])`. -/
def predict (dt : ℚ) (w : Vec2) (f : Hist) : Vec2 :=
  (w.1 + dt / 24 * (55 * f.f3.1 - 59 * f.f2.1 + 37 * f.f1.1 - 9 * f.f0.1),
   w.2 + dt / 24 * (55 * f.f3.2 - 59 * f.f2.2 + 37 * f.f1.2 - 9 * f.f0.2))

/-- The `correct` closure (Adams-Moulton 3, single pass):
`w += (dt/24) * (9*fpred + 19*f[3] - 5*f[2] + f[1])`. -/
def correct (dt : ℚ) (w : Vec2) (f : Hist) (fpred : Vec2) : Vec2 :=
  (w.1 + dt / 24 * (9 * fpred.1 + 19 * f.f3.1 - 5 * f.f2.1 + f.f1.1),
   w.2 + dt / 24 * (9 * fpred.2 + 19 * f.f3.2 - 5 * f.f2.2 + f.f1.2))

/-- One iteration of the `abam4_pred_corr` main loop body: one predict, one
evaluate, one correct, one evaluate, then shift the history window left and
store the derivative of the corrected state as the newest slot. -/
def abamStep (rate : Vec2 → Vec2) (dt : ℚ) (w : Vec2) (f : Hist) : Vec2 × Hist :=
  let wpred := predict dt w f
  let fpred := rate wpred
  let wnew := correct dt w f fpred
  let fcorr := rate wnew
  (wnew, ⟨f.f1, f.f2, f.f3, fcorr⟩)

/-- The `abam4_pred_corr` main loop `for i in 4..=el`: read the last pushed
state, run the step body, push the new state and the time `t0 + i*dt`. -/
def abamLoop (rate : Vec2 → Vec2) (t0 dt : ℚ) :
    ℕ → ℕ → (List ℚ × List Vec2) × Hist → (List ℚ × List Vec2) × Hist
  | _, 0, s => s
  | i, rem + 1, s =>
    abamLoop rate t0 dt (i + 1) rem
      ((s.1.1 ++ [t0 + (i : ℚ) * dt],
        s.1.2 ++ [(abamStep rate dt (s.1.2.getLastD (0, 0)) s.2).1]),
       (abamStep rate dt (s.1.2.getLastD (0, 0)) s.2).2)

/-- `abam4_pred_corr`: bootstrap the first states by an RK4 run over
`[t0, t0 + 3*dt]`, replay them (with their times and derivatives) through
the initialization loop, then run the main loop for `i in 4..=el`. -/
def abam4_pred_corr (alpha dt t0 tf : ℚ) : List ℚ × List Vec2 :=
  (abamLoop (rate alpha) t0 dt 4 (stepCount t0 tf dt + 1 - 4)
    (abamInit (rate alpha) t0 dt 0 (rk4 alpha dt t0 (t0 + 3 * dt)).2
      (([], []), hist0))).1

/-- The hard-coded ecosystem instance constructed inside `compare` (and
`run`): `ic = [1e5, 1e5]`, `a = [0.1, 0.1]`, `b = [8e-7, 8e-7]`,
`c = [1e-6, 1e-7]`, span `[0, 10]`. -/
def compareEco : Ecosystem :=
  Ecosystem.new (100000, 100000) (1 / 10, 1 / 10)
    (8 / 10 ^ 7, 8 / 10 ^ 7) (1 / 10 ^ 6, 1 / 10 ^ 7) (0, 10)

/-- The computational core of `compare` in `ecosystem.rs`, with the plotting
stripped and the `f64::log10` capability passed in as a function argument:
run the hard-coded ecosystem once per step size `dt, 2dt, 4dt, 8dt, 16dt`,
keep each run's final state, and produce the inverse step sizes and the two
per-component `log10(max(relative error, 1e-16))` series that the source
hands to the plot. -/
def Ecosystem.compare (log10 : ℚ → ℚ) (dt : ℚ) : List ℚ × List ℚ × List ℚ :=
  let dtarr : List ℚ := [dt, 2 * dt, 4 * dt, 8 * dt, 16 * dt]
  let eco := compareEco
  let solutions := dtarr.map (fun dti => (eco.solve dti).2.getLastD (0, 0))
  let inv_dt := (dtarr.drop 1).reverse.map (fun dti => 1 / dti)
  let exactSol := solutions.headD (0, 0)
  let rel_err0 := (solutions.drop 1).reverse.map
    (fun s => |s.1 - exactSol.1| / |exactSol.1|)
  let rel_err1 := (solutions.drop 1).reverse.map
    (fun s => |s.2 - exactSol.2| / |exactSol.2|)
  let logerr0 := rel_err0.map (fun er => log10 (max er (1 / 10 ^ 16)))
  let logerr1 := rel_err1.map (fun er => log10 (max er (1 / 10 ^ 16)))
  (inv_dt, logerr0, logerr1)

/-- The per-step update claim C2 states: the classical RK4 stages, every
intermediate state based on the current state `w` itself. -/
def rk4StepClaim (rate : Vec2 → Vec2) (dt : ℚ) (w : Vec2) : Vec2 :=
  let k1 := rate w
  let k2 := rate (update w k1 (dt / 2))
  let k3 := rate (update w k2 (dt / 2))
  let k4 := rate (update w k3 dt)
  next dt w k1 k2 k3 k4

/-- The derivative evaluations of the four most recent states of a
trajectory, oldest to newest. -/
def lastFourRates (rate : Vec2 → Vec2) (ys : List Vec2) : Hist :=
  ⟨rate (ys.getD (ys.length - 4) (0, 0)), rate (ys.getD (ys.length - 3) (0, 0)),
   rate (ys.getD (ys.length - 2) (0, 0)), rate (ys.getD (ys.length - 1) (0, 0))⟩

/-! ### Helper lemmas -/

lemma cons_map_range {α : Type} (f : ℕ → α) (n : ℕ) :
    f 0 :: (List.range n).map (fun j => f (j + 1)) = (List.range (n + 1)).map f := by
  rw [List.range_succ_eq_map, List.map_cons, List.map_map]
  rfl

lemma map_range_add {α : Type} (f : ℕ → α) (a b : ℕ) :
    (List.range (a + b)).map f =
      (List.range a).map f ++ (List.range b).map (fun j => f (a + j)) := by
  rw [List.range_add, List.map_append, List.map_map]
  rfl

lemma getD_map_range {α : Type} (f : ℕ → α) (L i : ℕ) (d : α) (h : i < L) :
    ((List.range L).map f).getD i d = f i := by
  rw [List.getD_eq_getElem _ _ (by simpa using h)]
  simp

lemma rk4Loop_fst (f : Vec2 → Vec2) (t0 dt : ℚ) (rem : ℕ) :
    ∀ (i : ℕ) (acc : List ℚ × List Vec2),
    (rk4Loop f t0 dt i rem acc).1 =
      acc.1 ++ (List.range rem).map (fun j => t0 + ((i + j : ℕ) : ℚ) * dt) := by
  induction rem with
  | zero => intro i acc; simp [rk4Loop]
  | succ n ih =>
    intro i acc
    simp only [rk4Loop]
    rw [ih, List.append_assoc, List.singleton_append]
    refine congrArg (acc.1 ++ ·) ?_
    rw [← cons_map_range (fun j : ℕ => t0 + ((i + j : ℕ) : ℚ) * dt) n, List.cons_eq_cons]
    refine ⟨by norm_num, List.map_congr_left fun a _ => ?_⟩
    show t0 + ((i + 1 + a : ℕ) : ℚ) * dt = t0 + ((i + (a + 1) : ℕ) : ℚ) * dt
    rw [show i + 1 + a = i + (a + 1) from by omega]

lemma rk4Loop_snd (f : Vec2 → Vec2) (t0 dt : ℚ) (rem : ℕ) :
    ∀ (i : ℕ) (acc : List ℚ × List Vec2),
    (rk4Loop f t0 dt i rem acc).2 =
      acc.2 ++ List.iterate (rk4Step f dt) (rk4Step f dt (acc.2.getLastD (0, 0))) rem := by
  induction rem with
  | zero => intro i acc; simp [rk4Loop]
  | succ n ih =>
    intro i acc
    simp only [rk4Loop]
    rw [ih, List.getLastD_concat, List.append_assoc]
    rfl

lemma rk4_fst (alpha dt t0 tf : ℚ) :
    (rk4 alpha dt t0 tf).1 =
      (List.range (stepCount t0 tf dt + 1)).map (fun n : ℕ => t0 + (n : ℚ) * dt) := by
  unfold rk4
  rw [rk4Loop_fst, List.singleton_append,
    ← cons_map_range (fun n : ℕ => t0 + (n : ℚ) * dt) (stepCount t0 tf dt),
    List.cons_eq_cons]
  refine ⟨by norm_num, List.map_congr_left fun a _ => ?_⟩
  show t0 + ((1 + a : ℕ) : ℚ) * dt = t0 + ((a + 1 : ℕ) : ℚ) * dt
  rw [Nat.add_comm 1 a]

lemma rk4_snd (alpha dt t0 tf : ℚ) :
    (rk4 alpha dt t0 tf).2 =
      List.iterate (rk4Step (rate alpha) dt) (0, 1 / 10) (stepCount t0 tf dt + 1) := by
  unfold rk4
  rw [rk4Loop_snd]
  rfl

lemma eco_fst (e : Ecosystem) (dt : ℚ) :
    (e.solve dt).1 =
      (List.range (stepCount e.ts.1 e.ts.2 dt + 1)).map
        (fun n : ℕ => e.ts.1 + (n : ℚ) * dt) := by
  unfold Ecosystem.solve
  rw [rk4Loop_fst, List.singleton_append,
    ← cons_map_range (fun n : ℕ => e.ts.1 + (n : ℚ) * dt) (stepCount e.ts.1 e.ts.2 dt),
    List.cons_eq_cons]
  refine ⟨by norm_num, List.map_congr_left fun a _ => ?_⟩
  show e.ts.1 + ((1 + a : ℕ) : ℚ) * dt = e.ts.1 + ((a + 1 : ℕ) : ℚ) * dt
  rw [Nat.add_comm 1 a]

lemma eco_snd (e : Ecosystem) (dt : ℚ) :
    (e.solve dt).2 =
      List.iterate (rk4Step e.rate dt) e.ic (stepCount e.ts.1 e.ts.2 dt + 1) := by
  unfold Ecosystem.solve
  rw [rk4Loop_snd]
  rfl

lemma abamLoop_fst (r : Vec2 → Vec2) (t0 dt : ℚ) (rem : ℕ) :
    ∀ (i : ℕ) (s : (List ℚ × List Vec2) × Hist),
    (abamLoop r t0 dt i rem s).1.1 =
      s.1.1 ++ (List.range rem).map (fun j => t0 + ((i + j : ℕ) : ℚ) * dt) := by
  induction rem with
  | zero => intro i s; simp [abamLoop]
  | succ n ih =>
    intro i s
    simp only [abamLoop]
    rw [ih, List.append_assoc, List.singleton_append]
    refine congrArg (s.1.1 ++ ·) ?_
    rw [← cons_map_range (fun j : ℕ => t0 + ((i + j : ℕ) : ℚ) * dt) n, List.cons_eq_cons]
    refine ⟨by norm_num, List.map_congr_left fun a _ => ?_⟩
    show t0 + ((i + 1 + a : ℕ) : ℚ) * dt = t0 + ((i + (a + 1) : ℕ) : ℚ) * dt
    rw [show i + 1 + a = i + (a + 1) from by omega]

lemma abamLoop_len_snd (r : Vec2 → Vec2) (t0 dt : ℚ) (rem : ℕ) :
    ∀ (i : ℕ) (s : (List ℚ × List Vec2) × Hist),
    (abamLoop r t0 dt i rem s).1.2.length = s.1.2.length + rem := by
  induction rem with
  | zero => intro i s; simp [abamLoop]
  | succ n ih =>
    intro i s
    simp only [abamLoop]
    rw [ih]
    simp only [List.length_append, List.length_singleton]
    omega

lemma abamLoop_snd_prefix (r : Vec2 → Vec2) (t0 dt : ℚ) (rem : ℕ) :
    ∀ (i : ℕ) (s : (List ℚ × List Vec2) × Hist),
    ∃ l : List Vec2, (abamLoop r t0 dt i rem s).1.2 = s.1.2 ++ l := by
  induction rem with
  | zero => intro i s; exact ⟨[], by simp [abamLoop]⟩
  | succ n ih =>
    intro i s
    simp only [abamLoop]
    obtain ⟨l, hl⟩ := ih (i + 1)
      ((s.1.1 ++ [t0 + (i : ℚ) * dt],
        s.1.2 ++ [(abamStep r dt (s.1.2.getLastD (0, 0)) s.2).1]),
       (abamStep r dt (s.1.2.getLastD (0, 0)) s.2).2)
    exact ⟨_ , by rw [hl, List.append_assoc]⟩

lemma lastFourRates_concat (r : Vec2 → Vec2) (ys : List Vec2) (w : Vec2)
    (h : 4 ≤ ys.length) :
    lastFourRates r (ys ++ [w]) =
      ⟨(lastFourRates r ys).f1, (lastFourRates r ys).f2, (lastFourRates r ys).f3, r w⟩ := by
  unfold lastFourRates
  simp only [List.length_append, List.length_singleton]
  rw [show ys.length + 1 - 4 = ys.length - 3 from by omega,
    show ys.length + 1 - 3 = ys.length - 2 from by omega,
    show ys.length + 1 - 2 = ys.length - 1 from by omega,
    show ys.length + 1 - 1 = ys.length from by omega,
    List.getD_append _ _ _ _ (by omega), List.getD_append _ _ _ _ (by omega),
    List.getD_append _ _ _ _ (by omega),
    List.getD_append_right _ _ _ _ (le_refl _)]
  simp

lemma abamLoop_hist_inv (r : Vec2 → Vec2) (t0 dt : ℚ) (rem : ℕ) :
    ∀ (i : ℕ) (s : (List ℚ × List Vec2) × Hist), 4 ≤ s.1.2.length →
      s.2 = lastFourRates r s.1.2 →
      (abamLoop r t0 dt i rem s).2 = lastFourRates r (abamLoop r t0 dt i rem s).1.2 := by
  induction rem with
  | zero => intro i s _ hf; simpa [abamLoop] using hf
  | succ n ih =>
    intro i s h4 hf
    simp only [abamLoop]
    apply ih
    · simp only [List.length_append, List.length_singleton]; omega
    · rw [lastFourRates_concat r s.1.2 _ h4, ← hf]
      rfl

lemma stepCount_bootstrap (t0 dt : ℚ) (hdt : dt ≠ 0) :
    stepCount t0 (t0 + 3 * dt) dt = 3 := by
  unfold stepCount
  rw [add_sub_cancel_left, mul_div_assoc, div_self hdt, mul_one]
  norm_num
  rfl

lemma boot_snd (alpha dt t0 : ℚ) (hdt : dt ≠ 0) :
    (rk4 alpha dt t0 (t0 + 3 * dt)).2 =
      [((0 : ℚ), (1 / 10 : ℚ)),
       rk4Step (rate alpha) dt (0, 1 / 10),
       rk4Step (rate alpha) dt (rk4Step (rate alpha) dt (0, 1 / 10)),
       rk4Step (rate alpha) dt
         (rk4Step (rate alpha) dt (rk4Step (rate alpha) dt (0, 1 / 10)))] := by
  rw [rk4_snd, stepCount_bootstrap t0 dt hdt]
  rfl

lemma abamInit_four (r : Vec2 → Vec2) (t0 dt : ℚ) (w0 w1 w2 w3 : Vec2) :
    abamInit r t0 dt 0 [w0, w1, w2, w3] (([], []), hist0) =
      (((List.range 4).map (fun n : ℕ => t0 + (n : ℚ) * dt), [w0, w1, w2, w3]),
       ⟨r w0, r w1, r w2, r w3⟩) := by
  rfl

lemma abam4_fst (alpha dt t0 tf : ℚ) (hdt : dt ≠ 0) :
    (abam4_pred_corr alpha dt t0 tf).1 =
      (List.range (4 + (stepCount t0 tf dt + 1 - 4))).map
        (fun n : ℕ => t0 + (n : ℚ) * dt) := by
  unfold abam4_pred_corr
  rw [boot_snd alpha dt t0 hdt, abamInit_four, abamLoop_fst,
    map_range_add (fun n : ℕ => t0 + (n : ℚ) * dt) 4 (stepCount t0 tf dt + 1 - 4)]

lemma abam4_len_snd (alpha dt t0 tf : ℚ) (hdt : dt ≠ 0) :
    (abam4_pred_corr alpha dt t0 tf).2.length =
      4 + (stepCount t0 tf dt + 1 - 4) := by
  unfold abam4_pred_corr
  rw [boot_snd alpha dt t0 hdt, abamInit_four, abamLoop_len_snd]
  simp [Nat.add_comm]

lemma abam4_snd_prefix (alpha dt t0 tf : ℚ) (hdt : dt ≠ 0) :
    ∃ l : List Vec2,
      (abam4_pred_corr alpha dt t0 tf).2 = (rk4 alpha dt t0 (t0 + 3 * dt)).2 ++ l := by
  unfold abam4_pred_corr
  obtain ⟨l, hl⟩ := abamLoop_snd_prefix (rate alpha) t0 dt (stepCount t0 tf dt + 1 - 4) 4
    (abamInit (rate alpha) t0 dt 0 (rk4 alpha dt t0 (t0 + 3 * dt)).2 (([], []), hist0))
  refine ⟨l, ?_⟩
  rw [hl, boot_snd alpha dt t0 hdt, abamInit_four]

lemma abam4_boot_only (alpha dt t0 tf : ℚ) (hdt : dt ≠ 0)
    (h : stepCount t0 tf dt < 4) :
    abam4_pred_corr alpha dt t0 tf = rk4 alpha dt t0 (t0 + 3 * dt) := by
  unfold abam4_pred_corr
  rw [show stepCount t0 tf dt + 1 - 4 = 0 from by omega,
    boot_snd alpha dt t0 hdt, abamInit_four]
  simp only [abamLoop]
  refine Prod.ext ?_ ?_
  · rw [rk4_fst, stepCount_bootstrap t0 dt hdt]
  · rw [boot_snd alpha dt t0 hdt]

lemma stepCount_cast (t0 tf dt : ℚ) (hdt : 0 < dt) (htf : t0 < tf) :
    (stepCount t0 tf dt : ℤ) = ⌊(tf - t0) / dt⌋ := by
  unfold stepCount
  rw [Int.toNat_of_nonneg]
  exact Int.floor_nonneg.mpr (div_nonneg (sub_nonneg.mpr htf.le) hdt.le)

lemma stepCount_nonpos (t0 tf dt : ℚ) (h : (tf - t0) / dt ≤ 0) :
    stepCount t0 tf dt = 0 := by
  unfold stepCount
  exact Int.toNat_of_nonpos (Int.floor_nonpos h)

/-! ### Claim theorems -/

/-- C1: for every configuration with `dt > 0` and `tf > t0` (and, for the
ABAM4 integrator, at least 4 steps), the trajectory returned by each solver
has exactly `floor((tf - t0)/dt) + 1` samples; under these hypotheses the
`ℕ`-valued step count agrees with the mathematical floor. -/
theorem C1_step_count_invariant (e : Ecosystem) (alpha dt t0 tf : ℚ)
    (hdt : 0 < dt) (hts : e.ts.1 < e.ts.2) (htf : t0 < tf) :
    (e.solve dt).2.length = stepCount e.ts.1 e.ts.2 dt + 1 ∧
    (rk4 alpha dt t0 tf).2.length = stepCount t0 tf dt + 1 ∧
    (4 ≤ stepCount t0 tf dt →
      (abam4_pred_corr alpha dt t0 tf).2.length = stepCount t0 tf dt + 1) ∧
    (stepCount e.ts.1 e.ts.2 dt : ℤ) = ⌊(e.ts.2 - e.ts.1) / dt⌋ ∧
    (stepCount t0 tf dt : ℤ) = ⌊(tf - t0) / dt⌋ := by
  refine ⟨?_, ?_, ?_, stepCount_cast _ _ _ hdt hts, stepCount_cast _ _ _ hdt htf⟩
  · rw [eco_snd]; simp
  · rw [rk4_snd]; simp
  · intro h4
    rw [abam4_len_snd alpha dt t0 tf (ne_of_gt hdt)]
    omega

/-- Witness for C1 at a concrete configuration. -/
theorem C1_step_count_invariant_witness :
    ((Ecosystem.new (1, 1) (1, 1) (1, 1) (1, 1) (0, 10)).solve 1).2.length =
      stepCount 0 10 1 + 1 :=
  (C1_step_count_invariant (Ecosystem.new (1, 1) (1, 1) (1, 1) (1, 1) (0, 10))
    1 1 0 10 (by norm_num) (by norm_num [Ecosystem.new]) (by norm_num)).1

/-- C2 (code bug): at `alpha = 0`, `dt = 1`, current state `(0, 1/10)`, the
state the RK4 loop body appends differs from the claimed classical RK4
update `w + (dt/6)(k1 + 2k2 + 2k3 + k4)` with `k3 = rate(w + (dt/2) k2)`
and `k4 = rate(w + dt k3)`: the source bases its third stage state on `w2`
and its fourth on `w3` instead of on `w`. -/
theorem C2_rk4_stages_deviate :
    rk4Step (rate 0) 1 (0, 1 / 10) ≠ rk4StepClaim (rate 0) 1 (0, 1 / 10) := by
  simp only [rk4Step, rk4StepClaim, rate, update, next]
  norm_num [Prod.mk.injEq]

/-- C3: each ABAM4 main-loop iteration performs exactly one predict and one
correct: the predictor is the Adams-Bashforth-4 formula, the appended state
is the single-pass Adams-Moulton-3 correction using the predicted
derivative, and one loop unfolding appends exactly that one state. -/
theorem C3_predict_correct_step (r : Vec2 → Vec2) (t0 dt : ℚ) (w : Vec2)
    (f : Hist) (i rem : ℕ) (s : (List ℚ × List Vec2) × Hist) :
    predict dt w f =
      (w.1 + dt / 24 * (55 * f.f3.1 - 59 * f.f2.1 + 37 * f.f1.1 - 9 * f.f0.1),
       w.2 + dt / 24 * (55 * f.f3.2 - 59 * f.f2.2 + 37 * f.f1.2 - 9 * f.f0.2)) ∧
    (abamStep r dt w f).1 =
      (w.1 + dt / 24 * (9 * (r (predict dt w f)).1 + 19 * f.f3.1 - 5 * f.f2.1 + f.f1.1),
       w.2 + dt / 24 * (9 * (r (predict dt w f)).2 + 19 * f.f3.2 - 5 * f.f2.2 + f.f1.2)) ∧
    abamLoop r t0 dt i (rem + 1) s =
      abamLoop r t0 dt (i + 1) rem
        ((s.1.1 ++ [t0 + (i : ℚ) * dt],
          s.1.2 ++ [(abamStep r dt (s.1.2.getLastD (0, 0)) s.2).1]),
         (abamStep r dt (s.1.2.getLastD (0, 0)) s.2).2) :=
  ⟨rfl, rfl, rfl⟩

/-- C4 fails on the code: no validation exists.  With the invalid
configuration `ts = (1, 0)` (so `tf < t0`) and `dt = 1`, the solver still
returns a truncated single-sample trajectory rather than rejecting. -/
theorem C4_no_validation_counterexample :
    ((Ecosystem.new (5, 5) (1, 1) (1, 1) (1, 1) (1, 0)).solve 1).2 ≠ [] ∧
    ((Ecosystem.new (5, 5) (1, 1) (1, 1) (1, 1) (1, 0)).solve 1).2 = [(5, 5)] ∧
    ((Ecosystem.new (5, 5) (1, 1) (1, 1) (1, 1) (1, 0)).solve 1).1 = [1] := by
  have hsc : stepCount 1 0 1 = 0 := by norm_num [stepCount]
  have h : (Ecosystem.new (5, 5) (1, 1) (1, 1) (1, 1) (1, 0)).solve 1 = ([1], [(5, 5)]) := by
    simp only [Ecosystem.solve, Ecosystem.new, hsc]
    rfl
  rw [h]
  refine ⟨by simp, rfl, rfl⟩

/-- C4 amended: the integrators never reject a configuration.  For `dt > 0`
with `tf ≤ t0`, or `dt < 0` with `t0 ≤ tf`, the computed step count is zero
and both RK4 solvers return the single-sample trajectory `([t0], [ic])`;
the ABAM4 integrator under such a span returns the 4-sample RK4 bootstrap
trajectory instead of an error. -/
theorem C4_no_validation_amended (e : Ecosystem) (alpha dt t0 tf : ℚ)
    (he : (0 < dt ∧ e.ts.2 ≤ e.ts.1) ∨ (dt < 0 ∧ e.ts.1 ≤ e.ts.2))
    (h : (0 < dt ∧ tf ≤ t0) ∨ (dt < 0 ∧ t0 ≤ tf)) :
    e.solve dt = ([e.ts.1], [e.ic]) ∧
    rk4 alpha dt t0 tf = ([t0], [(0, 1 / 10)]) ∧
    (0 < dt → tf ≤ t0 → abam4_pred_corr alpha dt t0 tf = rk4 alpha dt t0 (t0 + 3 * dt)) := by
  have key : ∀ a b dtx : ℚ, ((0 < dtx ∧ b ≤ a) ∨ (dtx < 0 ∧ a ≤ b)) →
      (b - a) / dtx ≤ 0 := by
    intro a b dtx hc
    rcases hc with ⟨h1, h2⟩ | ⟨h1, h2⟩
    · exact div_nonpos_iff.2 (Or.inr ⟨sub_nonpos.2 h2, h1.le⟩)
    · exact div_nonpos_iff.2 (Or.inl ⟨sub_nonneg.2 h2, h1.le⟩)
  refine ⟨?_, ?_, ?_⟩
  · unfold Ecosystem.solve
    rw [stepCount_nonpos _ _ _ (key _ _ _ he)]
    rfl
  · unfold rk4
    rw [stepCount_nonpos _ _ _ (key _ _ _ h)]
    rfl
  · intro hdt' htf'
    exact abam4_boot_only alpha dt t0 tf (ne_of_gt hdt')
      (by rw [stepCount_nonpos _ _ _ (key _ _ _ (Or.inl ⟨hdt', htf'⟩))]; omega)

/-- Witness for C4's amended statement at a concrete invalid configuration. -/
theorem C4_no_validation_amended_witness :
    (Ecosystem.new (5, 5) (1, 1) (1, 1) (1, 1) (1, 0)).solve 1 = ([1], [(5, 5)]) :=
  (C4_no_validation_amended (Ecosystem.new (5, 5) (1, 1) (1, 1) (1, 1) (1, 0))
    1 1 1 0
    (Or.inl ⟨by norm_num, by norm_num [Ecosystem.new]⟩)
    (Or.inl ⟨by norm_num, by norm_num⟩)).1

/-- C5: with `dt > 0` and at least 4 steps, the first 4 states of an ABAM4
run equal the first 4 states of the RK4 run over the same span, and they
are exactly the 4 states of the RK4 bootstrap run over `[t0, t0 + 3*dt]`. -/
theorem C5_bootstrap_agreement (alpha dt t0 tf : ℚ) (hdt : 0 < dt)
    (hN : 4 ≤ stepCount t0 tf dt) :
    (abam4_pred_corr alpha dt t0 tf).2.take 4 = (rk4 alpha dt t0 tf).2.take 4 ∧
    (abam4_pred_corr alpha dt t0 tf).2.take 4 = (rk4 alpha dt t0 (t0 + 3 * dt)).2 ∧
    (rk4 alpha dt t0 (t0 + 3 * dt)).2.length = 4 := by
  have hdt' : dt ≠ 0 := ne_of_gt hdt
  have hboot : (rk4 alpha dt t0 (t0 + 3 * dt)).2.length = 4 := by
    rw [boot_snd alpha dt t0 hdt']
    rfl
  have htake : (abam4_pred_corr alpha dt t0 tf).2.take 4 =
      (rk4 alpha dt t0 (t0 + 3 * dt)).2 := by
    obtain ⟨l, hl⟩ := abam4_snd_prefix alpha dt t0 tf hdt'
    rw [hl, List.take_left' hboot]
  refine ⟨?_, htake, hboot⟩
  rw [htake, boot_snd alpha dt t0 hdt', rk4_snd, List.take_iterate,
    show min 4 (stepCount t0 tf dt + 1) = 4 from by omega]
  rfl

/-- Witness for C5 at a concrete configuration. -/
theorem C5_bootstrap_agreement_witness :
    (abam4_pred_corr 1 1 0 10).2.take 4 = (rk4 1 1 0 10).2.take 4 :=
  (C5_bootstrap_agreement 1 1 0 10 (by norm_num) (by norm_num [stepCount])).1

/-- C6: for every trajectory returned by the three solvers, `time[i] = t0 + i*dt`
for every index in range, the time and state sequences have equal length, and
the state at index 0 is the initial condition. -/
theorem C6_time_grid (e : Ecosystem) (alpha dt t0 tf : ℚ) (hdt : dt ≠ 0) :
    ((e.solve dt).1.length = (e.solve dt).2.length ∧
      (∀ i : ℕ, i < (e.solve dt).1.length →
        (e.solve dt).1.getD i 0 = e.ts.1 + (i : ℚ) * dt) ∧
      (e.solve dt).2.head? = some e.ic) ∧
    ((rk4 alpha dt t0 tf).1.length = (rk4 alpha dt t0 tf).2.length ∧
      (∀ i : ℕ, i < (rk4 alpha dt t0 tf).1.length →
        (rk4 alpha dt t0 tf).1.getD i 0 = t0 + (i : ℚ) * dt) ∧
      (rk4 alpha dt t0 tf).2.head? = some (0, 1 / 10)) ∧
    ((abam4_pred_corr alpha dt t0 tf).1.length =
        (abam4_pred_corr alpha dt t0 tf).2.length ∧
      (∀ i : ℕ, i < (abam4_pred_corr alpha dt t0 tf).1.length →
        (abam4_pred_corr alpha dt t0 tf).1.getD i 0 = t0 + (i : ℚ) * dt) ∧
      (abam4_pred_corr alpha dt t0 tf).2.head? = some (0, 1 / 10)) := by
  refine ⟨⟨?_, ?_, ?_⟩, ⟨?_, ?_, ?_⟩, ⟨?_, ?_, ?_⟩⟩
  · rw [eco_fst, eco_snd]; simp
  · intro i hi
    rw [eco_fst] at hi ⊢
    simp only [List.length_map, List.length_range] at hi
    exact getD_map_range _ _ _ _ hi
  · rw [eco_snd]
    simp [List.iterate]
  · rw [rk4_fst, rk4_snd]; simp
  · intro i hi
    rw [rk4_fst] at hi ⊢
    simp only [List.length_map, List.length_range] at hi
    exact getD_map_range _ _ _ _ hi
  · rw [rk4_snd]
    simp [List.iterate]
  · rw [abam4_fst alpha dt t0 tf hdt, abam4_len_snd alpha dt t0 tf hdt]; simp
  · intro i hi
    rw [abam4_fst alpha dt t0 tf hdt] at hi ⊢
    simp only [List.length_map, List.length_range] at hi
    exact getD_map_range _ _ _ _ hi
  · obtain ⟨l, hl⟩ := abam4_snd_prefix alpha dt t0 tf hdt
    rw [hl, boot_snd alpha dt t0 hdt]
    rfl

/-- Witness for C6 at a concrete configuration. -/
theorem C6_time_grid_witness :
    ((Ecosystem.new (1, 1) (1, 1) (1, 1) (1, 1) (0, 10)).solve 1).2.head? =
      some ((1 : ℚ), (1 : ℚ)) :=
  ((C6_time_grid (Ecosystem.new (1, 1) (1, 1) (1, 1) (1, 1) (0, 10))
    1 1 0 10 (by norm_num)).1).2.2

/-- C7: along every ABAM4 run the 4-slot derivative history at the start of
each main-loop step holds exactly the derivative evaluations of the 4 most
recent trajectory states, oldest to newest; each step shifts the window left
by one slot, discards the oldest entry, and appends the derivative of the
newly corrected state; and the run is the stated loop over the stated
initial window. -/
theorem C7_history_invariant (alpha dt t0 tf : ℚ) (hdt : dt ≠ 0) :
    (∀ k : ℕ,
      (abamLoop (rate alpha) t0 dt 4 k
        (abamInit (rate alpha) t0 dt 0 (rk4 alpha dt t0 (t0 + 3 * dt)).2
          (([], []), hist0))).2 =
      lastFourRates (rate alpha)
        (abamLoop (rate alpha) t0 dt 4 k
          (abamInit (rate alpha) t0 dt 0 (rk4 alpha dt t0 (t0 + 3 * dt)).2
            (([], []), hist0))).1.2) ∧
    (∀ (w : Vec2) (f : Hist),
      (abamStep (rate alpha) dt w f).2 =
        ⟨f.f1, f.f2, f.f3, rate alpha (abamStep (rate alpha) dt w f).1⟩) ∧
    abam4_pred_corr alpha dt t0 tf =
      (abamLoop (rate alpha) t0 dt 4 (stepCount t0 tf dt + 1 - 4)
        (abamInit (rate alpha) t0 dt 0 (rk4 alpha dt t0 (t0 + 3 * dt)).2
          (([], []), hist0))).1 := by
  refine ⟨?_, fun w f => rfl, rfl⟩
  intro k
  apply abamLoop_hist_inv
  · rw [boot_snd alpha dt t0 hdt, abamInit_four]
    simp
  · rw [boot_snd alpha dt t0 hdt, abamInit_four]
    rfl

/-- Witness for C7 at a concrete configuration. -/
theorem C7_history_invariant_witness :
    (abamStep (rate 1) 1 (0, 0) hist0).2 =
      ⟨hist0.f1, hist0.f2, hist0.f3, rate 1 (abamStep (rate 1) 1 (0, 0) hist0).1⟩ :=
  (C7_history_invariant 1 1 0 10 (by norm_num)).2.1 (0, 0) hist0

/-- C8: the convergence comparison runs the hard-coded ecosystem once per
step size `dt, 2dt, 4dt, 8dt, 16dt`, keeps only each run's final state,
treats the `dt` run as the exact reference, computes each per-component
relative error floored at `1e-16` before applying `log10`, excludes the
reference run from the output, and orders the series by increasing `1/dt`
(the reverse of the input step-size order). -/
theorem C8_convergence_series (log10 : ℚ → ℚ) (dt : ℚ) (hdt : 0 < dt) :
    Ecosystem.compare log10 dt =
      ([1 / (16 * dt), 1 / (8 * dt), 1 / (4 * dt), 1 / (2 * dt)],
       [log10 (max (|((compareEco.solve (16 * dt)).2.getLastD (0, 0)).1 -
            ((compareEco.solve dt).2.getLastD (0, 0)).1| /
            |((compareEco.solve dt).2.getLastD (0, 0)).1|) (1 / 10 ^ 16)),
        log10 (max (|((compareEco.solve (8 * dt)).2.getLastD (0, 0)).1 -
            ((compareEco.solve dt).2.getLastD (0, 0)).1| /
            |((compareEco.solve dt).2.getLastD (0, 0)).1|) (1 / 10 ^ 16)),
        log10 (max (|((compareEco.solve (4 * dt)).2.getLastD (0, 0)).1 -
            ((compareEco.solve dt).2.getLastD (0, 0)).1| /
            |((compareEco.solve dt).2.getLastD (0, 0)).1|) (1 / 10 ^ 16)),
        log10 (max (|((compareEco.solve (2 * dt)).2.getLastD (0, 0)).1 -
            ((compareEco.solve dt).2.getLastD (0, 0)).1| /
            |((compareEco.solve dt).2.getLastD (0, 0)).1|) (1 / 10 ^ 16))],
       [log10 (max (|((compareEco.solve (16 * dt)).2.getLastD (0, 0)).2 -
            ((compareEco.solve dt).2.getLastD (0, 0)).2| /
            |((compareEco.solve dt).2.getLastD (0, 0)).2|) (1 / 10 ^ 16)),
        log10 (max (|((compareEco.solve (8 * dt)).2.getLastD (0, 0)).2 -
            ((compareEco.solve dt).2.getLastD (0, 0)).2| /
            |((compareEco.solve dt).2.getLastD (0, 0)).2|) (1 / 10 ^ 16)),
        log10 (max (|((compareEco.solve (4 * dt)).2.getLastD (0, 0)).2 -
            ((compareEco.solve dt).2.getLastD (0, 0)).2| /
            |((compareEco.solve dt).2.getLastD (0, 0)).2|) (1 / 10 ^ 16)),
        log10 (max (|((compareEco.solve (2 * dt)).2.getLastD (0, 0)).2 -
            ((compareEco.solve dt).2.getLastD (0, 0)).2| /
            |((compareEco.solve dt).2.getLastD (0, 0)).2|) (1 / 10 ^ 16))]) ∧
    List.Chain' (· < ·) [1 / (16 * dt), 1 / (8 * dt), 1 / (4 * dt), 1 / (2 * dt)] := by
  constructor
  · rfl
  · have key : ∀ a b : ℚ, 0 < a → a < b → 1 / b < 1 / a := by
      intro a b ha hab
      rw [div_lt_div_iff₀ (by linarith) ha]
      linarith
    simp only [List.chain'_cons, List.chain'_singleton, and_true]
    exact ⟨key (8 * dt) (16 * dt) (by linarith) (by linarith),
      key (4 * dt) (8 * dt) (by linarith) (by linarith),
      key (2 * dt) (4 * dt) (by linarith) (by linarith)⟩

/-- Witness for C8 at a concrete step size. -/
theorem C8_convergence_series_witness :
    List.Chain' (· < ·)
      [1 / (16 * (11 : ℚ)), 1 / (8 * (11 : ℚ)), 1 / (4 * (11 : ℚ)), 1 / (2 * (11 : ℚ))] :=
  (C8_convergence_series (fun _ => 0) 11 (by norm_num)).2

/-- C9: with `dt > 0`, `tf > t0` and fewer than 4 steps, the ABAM4
integrator returns no error: its main loop runs zero times and the result
is exactly the 4-sample RK4 bootstrap trajectory over `[t0, t0 + 3*dt]`,
whose last sample time `t0 + 3*dt` can exceed the requested `tf`. -/
theorem C9_short_span_returns_bootstrap (alpha dt t0 tf : ℚ) (hdt : 0 < dt)
    (htf : t0 < tf) (hN : stepCount t0 tf dt < 4) :
    abam4_pred_corr alpha dt t0 tf = rk4 alpha dt t0 (t0 + 3 * dt) ∧
    (abam4_pred_corr alpha dt t0 tf).2.length = 4 ∧
    (abam4_pred_corr alpha dt t0 tf).1.getD 3 0 = t0 + 3 * dt ∧
    ∃ dt' t0' tf' : ℚ, 0 < dt' ∧ t0' < tf' ∧ stepCount t0' tf' dt' < 4 ∧
      tf' < t0' + 3 * dt' := by
  have hdt' : dt ≠ 0 := ne_of_gt hdt
  have hmain := abam4_boot_only alpha dt t0 tf hdt' hN
  refine ⟨hmain, ?_, ?_, ⟨1, 0, 1 / 2, by norm_num, by norm_num,
    by norm_num [stepCount], by norm_num⟩⟩
  · rw [hmain, boot_snd alpha dt t0 hdt']
    rfl
  · rw [hmain, rk4_fst, stepCount_bootstrap t0 dt hdt',
      getD_map_range _ _ _ _ (by norm_num)]
    norm_num

/-- Witness for C9 at a concrete configuration. -/
theorem C9_short_span_returns_bootstrap_witness :
    abam4_pred_corr 1 1 0 (1 / 2) = rk4 1 1 0 (0 + 3 * 1) :=
  (C9_short_span_returns_bootstrap 1 1 0 (1 / 2) (by norm_num) (by norm_num)
    (by norm_num [stepCount])).1

/-- C10: for every `alpha`, `dt`, `t0` and `tf`, both oscillator
integrators start from the hard-coded initial state `[0.0, 0.1]`: the state
at index 0 of any returned trajectory equals `(0, 1/10)`. -/
theorem C10_fixed_initial_state (alpha dt t0 tf : ℚ) :
    (rk4 alpha dt t0 tf).2.head? = some (0, 1 / 10) ∧
    (abam4_pred_corr alpha dt t0 tf).2.head? = some (0, 1 / 10) := by
  constructor
  · rw [rk4_snd]
    simp [List.iterate]
  · by_cases hdt : dt = 0
    · subst hdt
      have h1 : stepCount t0 tf 0 = 0 := by simp [stepCount]
      have h2 : stepCount t0 (t0 + 3 * 0) 0 = 0 := by simp [stepCount]
      simp only [abam4_pred_corr, rk4, h1, h2]
      rfl
    · obtain ⟨l, hl⟩ := abam4_snd_prefix alpha dt t0 tf hdt
      rw [hl, boot_snd alpha dt t0 hdt]
      rfl
